import Mathlib

/-!
# Verification of the f1-dash gap computation and scale-mapping engine

Shallow embedding of the gap-to-leader derivation and geometric layout
mapping implemented in `src/dash/src/components/dashboard/VerticalOfDoom.tsx`
(which contains both the Vertical-of-Doom and the Circle-of-Doom component)
and the relevant defaults of `src/dash/src/stores/useSettingsStore.ts`.

JavaScript numbers are modelled by exact rationals (`ℚ`); all parsed time
values are integral multiples of one millisecond and all mapper arithmetic
is plain field arithmetic, so the rational model is the intended semantics.
Strings are modelled as `String`/`List Char`.
-/

namespace Dash

/-! ## Character helpers

The regexes in the source use the character class `[0-9]` (`\d` with no
unicode flag does not appear); `isDig` is exactly that class. -/

def isDig (c : Char) : Bool :=
  decide (48 ≤ c.toNat ∧ c.toNat ≤ 57)

/-- `parseInt(s, 10)` on a string of decimal digits. -/
def digitsToNat (l : List Char) : ℕ :=
  l.foldl (fun n c => n * 10 + (c.toNat - 48)) 0

/-- `s.padEnd(3, "0")` on a fraction of at most three digits. -/
def padTo3 (l : List Char) : List Char :=
  l ++ List.replicate (3 - l.length) '0'

/-- Milliseconds denoted by a (possibly short) fraction part:
`parseInt(frac.padEnd(3, "0"), 10)`. -/
def fracMs (l : List Char) : ℕ :=
  digitsToNat (padTo3 l)

/-- The WhiteSpace and LineTerminator code points removed by
JavaScript `String.prototype.trim`: TAB LF VT FF CR SP NBSP, the Unicode
space separators, LS, PS and the BOM. -/
def isJsWS (c : Char) : Bool :=
  decide (c.toNat ∈ [0x9, 0xa, 0xb, 0xc, 0xd, 0x20, 0xa0, 0x1680,
    0x2000, 0x2001, 0x2002, 0x2003, 0x2004, 0x2005, 0x2006, 0x2007,
    0x2008, 0x2009, 0x200a, 0x2028, 0x2029, 0x202f, 0x205f, 0x3000, 0xfeff])

/-- `input.trim()`. -/
def jsTrim (l : List Char) : List Char :=
  ((l.dropWhile isJsWS).reverse.dropWhile isJsWS).reverse

/-- `/[0-9]+L/i.test(s)`: the unanchored test succeeds exactly when some
digit of `s` is immediately followed by `L` or `l` (the `+` only requires
at least one digit, so the leftmost such digit witnesses the match). -/
def hasLapsPattern : List Char → Bool
  | a :: b :: rest => (isDig a && (b = 'L' || b = 'l')) || hasLapsPattern (b :: rest)
  | _ => false

/-! ## The regex grammars of `parseSeconds`

`/^(\d+):(\d{1,2})(?:\.(\d{1,3}))?$/` and `/^(\d+)(?:\.(\d{1,3}))?$/` are
implemented by maximal-munch digit runs.  This is equivalent to the
backtracking regex semantics: after each digit group the pattern requires
a non-digit (`:`, `.` or end of input), so the group can only match the
full maximal digit run, and the bounded quantifiers become length checks
on that run. -/

/-- `v.match(/^(\d+):(\d{1,2})(?:\.(\d{1,3}))?$/)` together with the value
computed from it: `mins * 60 + secs + ms / 1000`. -/
def parseHMS (v : List Char) : Option ℚ :=
  let d1 := v.takeWhile isDig
  let r1 := v.dropWhile isDig
  if d1.length = 0 then none
  else
    match r1 with
    | [] => none
    | c :: r2 =>
      if c = ':' then
        let d2 := r2.takeWhile isDig
        let r3 := r2.dropWhile isDig
        if 1 ≤ d2.length ∧ d2.length ≤ 2 then
          match r3 with
          | [] => some ((digitsToNat d1 : ℚ) * 60 + (digitsToNat d2 : ℚ))
          | e :: r4 =>
            if e = '.' then
              let d3 := r4.takeWhile isDig
              let r5 := r4.dropWhile isDig
              if 1 ≤ d3.length ∧ d3.length ≤ 3 ∧ r5 = [] then
                some ((digitsToNat d1 : ℚ) * 60 + (digitsToNat d2 : ℚ) + (fracMs d3 : ℚ) / 1000)
              else none
            else none
        else none
      else none

/-- `v.match(/^(\d+)(?:\.(\d{1,3}))?$/)` together with the value
computed from it: `secs + ms / 1000`. -/
def parseSS (v : List Char) : Option ℚ :=
  let d1 := v.takeWhile isDig
  let r1 := v.dropWhile isDig
  if d1.length = 0 then none
  else
    match r1 with
    | [] => some ((digitsToNat d1 : ℚ))
    | c :: r2 =>
      if c = '.' then
        let d2 := r2.takeWhile isDig
        let r3 := r2.dropWhile isDig
        if 1 ≤ d2.length ∧ d2.length ≤ 3 ∧ r3 = [] then
          some ((digitsToNat d1 : ℚ) + (fracMs d2 : ℚ) / 1000)
        else none
      else none

/-- `parseSeconds(input?: string): number | null` from
`VerticalOfDoom.tsx` (the identical copy in the Circle component is the
same function).  `none` models a missing (`undefined`) argument; the JS
falsiness test `!input` also rejects the empty string. -/
def parseSeconds (input : Option String) : Option ℚ :=
  match input with
  | none => none
  | some str =>
    if str = "" then none
    else
      let s := jsTrim str.toList
      if hasLapsPattern s then none
      else
        match s with
        | [] => none
        | c :: rest =>
          if c = '+' ∨ c = '-' then
            let sign : ℚ := if c = '-' then -1 else 1
            match parseHMS rest with
            | some x => some (sign * x)
            | none =>
              match parseSS rest with
              | some x => some (sign * x)
              | none => none
          else none

/-! ## Declarative grammars (from the spec wording)

The spec describes the accepted inputs by grammar, not by scanner; these
predicates state that description directly so the parser can be proved
equivalent to it. -/

/-- The string contains a laps-behind token: some digit immediately
followed by the letter `L`, case-insensitively. -/
def LapsToken (l : List Char) : Prop :=
  ∃ pre a b suf, l = pre ++ a :: b :: suf ∧ isDig a = true ∧ (b = 'L' ∨ b = 'l')

/-- Every character is a decimal digit. -/
def AllDig (l : List Char) : Prop := ∀ c ∈ l, isDig c = true

/-- The `minutes:seconds[.fraction]` grammar together with its value:
minutes one-or-more digits, seconds one-or-two digits, fraction one-to-three
digits right-padded with zeros to thousandths. -/
def MMSSVal (l : List Char) (v : ℚ) : Prop :=
  ∃ m s f, AllDig m ∧ 1 ≤ m.length ∧ AllDig s ∧ 1 ≤ s.length ∧ s.length ≤ 2 ∧
    ((f = [] ∧ l = m ++ ':' :: s) ∨
      (AllDig f ∧ 1 ≤ f.length ∧ f.length ≤ 3 ∧ l = m ++ ':' :: (s ++ '.' :: f))) ∧
    v = (digitsToNat m : ℚ) * 60 + (digitsToNat s : ℚ) + (fracMs f : ℚ) / 1000

/-- The `seconds[.fraction]` grammar together with its value. -/
def SSVal (l : List Char) (v : ℚ) : Prop :=
  ∃ s f, AllDig s ∧ 1 ≤ s.length ∧
    ((f = [] ∧ l = s) ∨ (AllDig f ∧ 1 ≤ f.length ∧ f.length ≤ 3 ∧ l = s ++ '.' :: f)) ∧
    v = (digitsToNat s : ℚ) + (fracMs f : ℚ) / 1000

/-- The value denoted by a signless delta body under either grammar. -/
def DeltaVal (l : List Char) (v : ℚ) : Prop := MMSSVal l v ∨ SSVal l v

/-! ## Data model

The TypeScript interfaces (`@/types/state.type`) are not part of the
sources; the record shapes below are modelled from the spec data model
(§3) and from the fields the components read.  Only the fields consumed
by the gap/scale engine are represented. -/

/-- An element of a driver's `stats` array. -/
structure StatsEntry where
  timeDiffToFastest : Option String
  timeDifftoPositionAhead : Option String

/-- The `intervalToPositionAhead` record. -/
structure IntervalAhead where
  value : Option String
  catching : Option Bool

/-- A lap-time record (`lastLapTime` / `bestLapTime`); only `value` is
read by the gap/scale engine. -/
structure LapValue where
  value : Option String

/-- The per-driver timing signals consumed by the gap/scale engine.
`sessionPart` is carried separately (it lives on the snapshot). -/
structure TimingDataDriver where
  racingNumber : String
  gapToLeader : Option String
  timeDiffToFastest : Option String
  timeDiffToPositionAhead : Option String
  intervalToPositionAhead : Option IntervalAhead
  stats : Option (List StatsEntry)
  lastLapTime : Option LapValue
  bestLapTime : Option LapValue

/-- `d.stats && sessionPart ? d.stats[Math.max(0, sessionPart - 1)]?.f :
undefined`.  JS truthiness: a missing `stats` array or a missing or ZERO
`sessionPart` selects the `undefined` branch; an out-of-range index yields
`undefined`. -/
def statsField (stats : Option (List StatsEntry)) (sessionPart : Option ℤ)
    (f : StatsEntry → Option String) : Option String :=
  match stats, sessionPart with
  | some st, some n => if n = 0 then none else (st.get? (max 0 (n - 1)).toNat).bind f
  | _, _ => none

/-- `getGapToLeaderSeconds` (identical in both components): direct
resolution with three-tier priority `gapToLeader`,
`stats[...].timeDiffToFastest`, `timeDiffToFastest`. -/
def getGapToLeaderSeconds (d : TimingDataDriver) (sessionPart : Option ℤ) : Option ℚ :=
  (parseSeconds d.gapToLeader).orElse fun _ =>
    (parseSeconds (statsField d.stats sessionPart StatsEntry.timeDiffToFastest)).orElse fun _ =>
      parseSeconds d.timeDiffToFastest

/-- `getIntervalAheadSeconds` (identical in both components): interval
resolution with three-tier priority `intervalToPositionAhead.value`,
`stats[...].timeDifftoPositionAhead`, `timeDiffToPositionAhead`. -/
def getIntervalAheadSeconds (d : TimingDataDriver) (sessionPart : Option ℤ) : Option ℚ :=
  (parseSeconds (d.intervalToPositionAhead.bind IntervalAhead.value)).orElse fun _ =>
    (parseSeconds (statsField d.stats sessionPart StatsEntry.timeDifftoPositionAhead)).orElse
      fun _ => parseSeconds d.timeDiffToPositionAhead

/-! A JavaScript `Map<string, number>`: an insertion-ordered association
list where `set` overwrites an existing key in place and `get` returns the
entry for the key. -/

/-- `gaps.set(k, v)`. -/
def jsMapSet (m : List (String × ℚ)) (k : String) (v : ℚ) : List (String × ℚ) :=
  if m.any (fun p => p.1 == k) then m.map (fun p => if p.1 == k then (k, v) else p)
  else m ++ [(k, v)]

/-- `gaps.get(k)` (`none` models `undefined`). -/
def jsMapGet (m : List (String × ℚ)) (k : String) : Option ℚ :=
  (m.find? (fun p => p.1 == k)).map (fun p => p.2)

/-- The body of the `for (let i = 1; ...)` loop of `computeGapsSeconds`:
processes the drivers after the leader in order, carrying the previous
driver (`ordered[i - 1]`) and the accumulated map. -/
def computeGapsGo (sessionPart : Option ℤ) :
    List TimingDataDriver → TimingDataDriver → List (String × ℚ) → List (String × ℚ)
  | [], _, m => m
  | d :: ds, prev, m =>
    match getGapToLeaderSeconds d sessionPart with
    | some direct => computeGapsGo sessionPart ds d (jsMapSet m d.racingNumber (max 0 direct))
    | none =>
      let prevGap := (jsMapGet m prev.racingNumber).getD 0
      let step := (getIntervalAheadSeconds d sessionPart).getD 0
      computeGapsGo sessionPart ds d (jsMapSet m d.racingNumber (max 0 (prevGap + step)))

/-- `computeGapsSeconds(ordered, sessionPart)` (identical in both
components): leader is set to `0`, every later driver to its direct gap
or to the chained previous-gap-plus-interval, clamped to `≥ 0`. -/
def computeGapsSeconds (ordered : List TimingDataDriver) (sessionPart : Option ℤ) :
    List (String × ℚ) :=
  match ordered with
  | [] => []
  | d0 :: rest => computeGapsGo sessionPart rest d0 (jsMapSet [] d0.racingNumber 0)

/-- Reference form of the reconstruction: the value of one driver given
the previous driver's final gap. -/
def specGapStep (sessionPart : Option ℤ) (prevGap : ℚ) (d : TimingDataDriver) : ℚ :=
  match getGapToLeaderSeconds d sessionPart with
  | some direct => max 0 direct
  | none => max 0 (prevGap + (getIntervalAheadSeconds d sessionPart).getD 0)

/-- Reference form of the reconstruction: the left-to-right fold over the
drivers after the leader. -/
def specGapsFrom (sessionPart : Option ℤ) (prevGap : ℚ) :
    List TimingDataDriver → List ℚ
  | [] => []
  | d :: ds =>
    specGapStep sessionPart prevGap d ::
      specGapsFrom sessionPart (specGapStep sessionPart prevGap d) ds

/-- Reference form of the reconstruction: leader `0`, then the fold. -/
def specGapsList (ordered : List TimingDataDriver) (sessionPart : Option ℤ) : List ℚ :=
  match ordered with
  | [] => []
  | _ :: rest => 0 :: specGapsFrom sessionPart 0 rest

/-- Modelled from the claim wording for the session-part tier: the tier
applies whenever `sessionPart` is *given*, with no JS-truthiness
exception for `sessionPart = 0`.  Used to compare the claimed direct
resolution with the code's. -/
def claimStatsField (stats : Option (List StatsEntry)) (sessionPart : Option ℤ)
    (f : StatsEntry → Option String) : Option String :=
  match stats, sessionPart with
  | some st, some n => (st.get? (max 0 (n - 1)).toNat).bind f
  | _, _ => none

/-- The claim's direct three-tier resolution (differs from
`getGapToLeaderSeconds` only through `claimStatsField`). -/
def claimDirect (d : TimingDataDriver) (sessionPart : Option ℤ) : Option ℚ :=
  (parseSeconds d.gapToLeader).orElse fun _ =>
    (parseSeconds (claimStatsField d.stats sessionPart StatsEntry.timeDiffToFastest)).orElse
      fun _ => parseSeconds d.timeDiffToFastest

/-! ## Scale configuration and the two mappers

`G1`/`G2` are the effective clamped thresholds computed by both
components from the raw settings; `orDefault` is the JS `x || d` idiom on
numbers (`0` is falsy). -/

inductive ScaleType where
  | piecewise
  | spread
  | fixed
deriving DecidableEq

/-- JS `x || d` for numbers (`NaN` does not arise in the rational model). -/
def orDefault (x d : ℚ) : ℚ := if x = 0 then d else x

/-- `Math.max(0.5, Math.min(g1Setting || 3, g2Setting || 15))`. -/
def effG1 (g1 g2 : ℚ) : ℚ := max (1/2) (min (orDefault g1 3) (orDefault g2 15))

/-- `Math.max(G1 + 0.5, g2Setting || 15)`. -/
def effG2 (g1 g2 : ℚ) : ℚ := max (effG1 g1 g2 + 1/2) (orDefault g2 15)

/-- `Math.max(...values)` for a possibly-empty list with `0` fallback
(`values.length ? Math.max(...values) : 0`). -/
def vSpreadSeconds (gaps : List ℚ) : ℚ :=
  match gaps with
  | [] => 0
  | x :: xs => xs.foldl max x

/-- `Math.max(...list, 0)`. -/
def maxWithZero (l : List ℚ) : ℚ := l.foldl max 0

/-- `mapGapToUnit` of the Vertical component: `gap ≤ 0` (or non-finite,
which does not arise in the rational model) maps to `0`; piecewise uses
the 0.7/0.3 split at the effective thresholds; fixed and spread divide by
a denominator floored at 1. -/
def mapGapToUnit (scaleType : ScaleType) (G1 G2 fixedSec spread : ℚ) (gap : ℚ) : ℚ :=
  if gap ≤ 0 then 0
  else
    match scaleType with
    | ScaleType.piecewise =>
      if gap ≤ G1 then gap / G1 * (7/10)
      else if gap ≤ G2 then 7/10 + (gap - G1) / (G2 - G1) * (3/10)
      else 1
    | ScaleType.fixed => min 1 (gap / max 1 (orDefault fixedSec 30))
    | ScaleType.spread => min 1 (gap / max 1 (orDefault spread 1))

/-- `piecewiseStretch` of the Vertical component: `1` unless piecewise;
otherwise `1 / mapGapToUnit(maxGap)` when that unit is strictly between
0 and 1, where `maxGap = Math.max(...visibleGaps, 0)`. -/
def piecewiseStretch (scaleType : ScaleType) (G1 G2 fixedSec spread : ℚ)
    (visibleGaps : List ℚ) : ℚ :=
  if scaleType ≠ ScaleType.piecewise then 1
  else if mapGapToUnit scaleType G1 G2 fixedSec spread (maxWithZero visibleGaps) ≤ 0 ∨
      1 ≤ mapGapToUnit scaleType G1 G2 fixedSec spread (maxWithZero visibleGaps) then 1
  else 1 / mapGapToUnit scaleType G1 G2 fixedSec spread (maxWithZero visibleGaps)

/-- The final unit coordinate assigned to a dot by the Vertical component
(`y: Math.min(1, u)` with `u = mapGapToUnit(gap) * (piecewise ? stretch : 1)`). -/
def dotY (scaleType : ScaleType) (G1 G2 fixedSec : ℚ) (visibleGaps : List ℚ) (gap : ℚ) : ℚ :=
  min 1 (mapGapToUnit scaleType G1 G2 fixedSec (vSpreadSeconds visibleGaps) gap *
    (if scaleType = ScaleType.piecewise then
      piecewiseStretch scaleType G1 G2 fixedSec (vSpreadSeconds visibleGaps) visibleGaps
    else 1))

/-- `baseSec` computed per dot by the Vertical component, used for the
`overMax` flag. -/
def baseSecOf (scaleType : ScaleType) (G2 fixedSec spread : ℚ) : ℚ :=
  match scaleType with
  | ScaleType.piecewise => G2
  | ScaleType.fixed => max 1 (orDefault fixedSec 30)
  | ScaleType.spread => max 1 (orDefault spread 1)

/-- `overMax: gap > baseSec` of the Vertical component. -/
def overMaxFlag (scaleType : ScaleType) (G2 fixedSec spread : ℚ) (gap : ℚ) : Bool :=
  decide (baseSecOf scaleType G2 fixedSec spread < gap)

/-- `getLapSecondsForLeader` of the Circle component: the leader's last
lap if it parses to more than 10 seconds, else the best lap under the
same test, else 90. -/
def getLapSecondsForLeader (leader : Option TimingDataDriver) : ℚ :=
  match parseSeconds ((leader.bind TimingDataDriver.lastLapTime).bind LapValue.value) with
  | some v =>
    if 10 < v then v
    else
      match parseSeconds ((leader.bind TimingDataDriver.bestLapTime).bind LapValue.value) with
      | some w => if 10 < w then w else 90
      | none => 90
  | none =>
    match parseSeconds ((leader.bind TimingDataDriver.bestLapTime).bind LapValue.value) with
    | some w => if 10 < w then w else 90
    | none => 90

/-- `spreadSeconds` of the Circle component: the maximum visible gap when
positive, otherwise `lapSeconds || 90`. -/
def cSpreadSeconds (gaps : List ℚ) (lapSeconds : ℚ) : ℚ :=
  let m := vSpreadSeconds gaps
  if 0 < m then m else orDefault lapSeconds 90

/-- `mapGapToAngle` of the Circle component: piecewise uses a 240°/120°
split at the same effective thresholds; fixed divides by
`max(1, fixedSec || 30)`; spread divides by `cSpreadSeconds` directly. -/
def mapGapToAngle (scaleType : ScaleType) (G1 G2 fixedSec cSpread : ℚ) (gap : ℚ) : ℚ :=
  if gap ≤ 0 then 0
  else
    match scaleType with
    | ScaleType.piecewise =>
      if gap ≤ G1 then gap / G1 * 240
      else if gap ≤ G2 then 240 + (gap - G1) / (G2 - G1) * 120
      else 360
    | ScaleType.fixed => min 360 (gap / max 1 (orDefault fixedSec 30) * 360)
    | ScaleType.spread => min 360 (gap / cSpread * 360)

/-- `visible` of both components:
`topN && topN > 0 ? ordered.slice(0, Math.min(topN, ordered.length)) :
ordered` (a `slice(0, n)` is a `take`). -/
def visibleOf (ordered : List TimingDataDriver) (topN : ℤ) : List TimingDataDriver :=
  if topN ≠ 0 ∧ 0 < topN then ordered.take (min topN (ordered.length : ℤ)).toNat
  else ordered

/-! ## Concrete snapshots used by the witnesses and counterexamples -/

/-- A driver carrying no timing signals at all. -/
def mkDriver (rn : String) : TimingDataDriver :=
  ⟨rn, none, none, none, none, none, none, none⟩

def exL1 : TimingDataDriver := mkDriver "1"

def exD2 : TimingDataDriver := { mkDriver "2" with gapToLeader := some "+1.0" }

def exD3 : TimingDataDriver :=
  { mkDriver "3" with intervalToPositionAhead := some ⟨some "+0.5", none⟩ }

/-- Driver for the C1 counterexample: a session-part gap in `stats[0]` and
a different flat fallback gap. -/
def cexD : TimingDataDriver :=
  { mkDriver "2" with stats := some [⟨some "+2.0", none⟩], timeDiffToFastest := some "+9.0" }

/-! Evaluation helpers: numeric values of the digit characters, so that
`simp`/`norm_num` can run the parser on concrete strings (the rational
operations are `irreducible`, which blocks plain `decide`). -/

@[simp] lemma toNat_c0 : Char.toNat '0' = 48 := by decide

@[simp] lemma toNat_c1 : Char.toNat '1' = 49 := by decide

@[simp] lemma toNat_c2 : Char.toNat '2' = 50 := by decide

@[simp] lemma toNat_c3 : Char.toNat '3' = 51 := by decide

@[simp] lemma toNat_c4 : Char.toNat '4' = 52 := by decide

@[simp] lemma toNat_c5 : Char.toNat '5' = 53 := by decide

@[simp] lemma toNat_c6 : Char.toNat '6' = 54 := by decide

@[simp] lemma toNat_c7 : Char.toNat '7' = 55 := by decide

@[simp] lemma toNat_c8 : Char.toNat '8' = 56 := by decide

@[simp] lemma toNat_c9 : Char.toNat '9' = 57 := by decide

lemma parseSeconds_eval_minutes : parseSeconds (some "+1:02.500") = some (125/2) := by
  norm_num +decide [parseSeconds, parseHMS, parseSS, jsTrim, hasLapsPattern, digitsToNat,
    fracMs, padTo3, isDig, isJsWS, List.takeWhile, List.dropWhile]

lemma parseSeconds_eval_negative : parseSeconds (some "-0.250") = some (-(1/4)) := by
  norm_num +decide [parseSeconds, parseHMS, parseSS, jsTrim, hasLapsPattern, digitsToNat,
    fracMs, padTo3, isDig, isJsWS, List.takeWhile, List.dropWhile]

lemma parseSeconds_eval_laps : parseSeconds (some "1L") = none := by
  norm_num +decide [parseSeconds, parseHMS, parseSS, jsTrim, hasLapsPattern, digitsToNat,
    fracMs, padTo3, isDig, isJsWS, List.takeWhile, List.dropWhile]

lemma parseSeconds_eval_unsigned : parseSeconds (some "1.234") = none := by
  norm_num +decide [parseSeconds, parseHMS, parseSS, jsTrim, hasLapsPattern, digitsToNat,
    fracMs, padTo3, isDig, isJsWS, List.takeWhile, List.dropWhile]

lemma parseSeconds_eval_trimmed : parseSeconds (some " +1") = some 1 := by
  norm_num +decide [parseSeconds, parseHMS, parseSS, jsTrim, hasLapsPattern, digitsToNat,
    fracMs, padTo3, isDig, isJsWS, List.takeWhile, List.dropWhile]

lemma fracMs_nil : fracMs [] = 0 := by decide

lemma hasLapsPattern_iff (l : List Char) : hasLapsPattern l = true ↔ LapsToken l := by
  induction l with
  | nil =>
    simp only [hasLapsPattern, LapsToken]
    constructor
    · intro h; cases h
    · rintro ⟨pre, a, b, suf, h, -, -⟩
      cases pre <;> simp_all
  | cons a tail ih =>
    cases tail with
    | nil =>
      simp only [hasLapsPattern, LapsToken]
      constructor
      · intro h; cases h
      · rintro ⟨pre, x, y, suf, h, -, -⟩
        have := congrArg List.length h
        simp [List.length_append] at this
        omega
    | cons b rest =>
      simp only [hasLapsPattern, Bool.or_eq_true, Bool.and_eq_true] at *
      constructor
      · rintro (⟨hd, hb⟩ | h)
        · refine ⟨[], a, b, rest, by simp, hd, ?_⟩
          rcases hb with hb | hb
          · left; exact of_decide_eq_true hb
          · right; exact of_decide_eq_true hb
        · rcases ih.mp h with ⟨pre, x, y, suf, heq, hd, hl⟩
          exact ⟨a :: pre, x, y, suf, by simp [heq], hd, hl⟩
      · rintro ⟨pre, x, y, suf, heq, hd, hl⟩
        cases pre with
        | nil =>
          simp only [List.nil_append, List.cons.injEq] at heq
          obtain ⟨rfl, rfl, rfl⟩ := heq
          left
          refine ⟨hd, ?_⟩
          rcases hl with rfl | rfl
          · left; decide
          · right; decide
        | cons p ps =>
          simp only [List.cons_append, List.cons.injEq] at heq
          obtain ⟨rfl, heq⟩ := heq
          exact Or.inr (ih.mpr ⟨ps, x, y, suf, heq, hd, hl⟩)

lemma takeWhile_all {p : Char → Bool} {m : List Char} (hm : ∀ x ∈ m, p x = true) :
    m.takeWhile p = m ∧ m.dropWhile p = [] := by
  induction m with
  | nil => simp
  | cons a t ih =>
    have ha : p a = true := hm a (List.mem_cons_self a t)
    have ht := ih fun x hx => hm x (List.mem_cons_of_mem a hx)
    simp [List.takeWhile_cons, List.dropWhile_cons, ha, ht.1, ht.2]

lemma takeWhile_append_stop {p : Char → Bool} {m t : List Char} {c : Char}
    (hm : ∀ x ∈ m, p x = true) (hc : p c = false) :
    (m ++ c :: t).takeWhile p = m ∧ (m ++ c :: t).dropWhile p = c :: t := by
  induction m with
  | nil => simp [List.takeWhile_cons, List.dropWhile_cons, hc]
  | cons a mt ih =>
    have ha : p a = true := hm a (List.mem_cons_self a mt)
    have ht := ih fun x hx => hm x (List.mem_cons_of_mem a hx)
    simp [List.takeWhile_cons, List.dropWhile_cons, ha, ht.1, ht.2]

lemma dropWhile_head_false {p : Char → Bool} :
    ∀ {l : List Char} {c : Char} {r : List Char}, l.dropWhile p = c :: r → p c = false := by
  intro l
  induction l with
  | nil => intro c r h; cases h
  | cons a t ih =>
    intro c r h
    by_cases hp : p a = true
    · rw [List.dropWhile_cons_of_pos hp] at h; exact ih h
    · rw [List.dropWhile_cons_of_neg hp] at h
      cases h
      exact Bool.not_eq_true _ ▸ hp

lemma allDig_takeWhile (l : List Char) : AllDig (l.takeWhile isDig) :=
  fun _ hc => List.mem_takeWhile_imp hc

lemma allDig_of_all {l : List Char} (h : l.all isDig = true) : AllDig l :=
  fun c hc => List.all_eq_true.mp h c hc

lemma parseSS_eq_some_iff {l : List Char} {v : ℚ} : parseSS l = some v ↔ SSVal l v := by
  constructor
  · intro h
    simp only [parseSS] at h
    split at h
    next => exact absurd h (by simp)
    next hlen =>
      split at h
      next hdrop =>
        injection h with h
        refine ⟨l.takeWhile isDig, [], allDig_takeWhile l, by omega, Or.inl ⟨rfl, ?_⟩, ?_⟩
        · conv_lhs => rw [← List.takeWhile_append_dropWhile (p := isDig) (l := l)]
          rw [hdrop, List.append_nil]
        · rw [← h]; norm_num [fracMs_nil]
      next c r2 hdrop =>
        split at h
        next hc =>
          subst hc
          split at h
          next hcond =>
            injection h with h
            obtain ⟨h1, h2, h3⟩ := hcond
            refine ⟨l.takeWhile isDig, r2.takeWhile isDig, allDig_takeWhile l, by omega,
              Or.inr ⟨allDig_takeWhile r2, h1, h2, ?_⟩, ?_⟩
            · conv_lhs => rw [← List.takeWhile_append_dropWhile (p := isDig) (l := l)]
              rw [hdrop]
              congr 2
              conv_lhs => rw [← List.takeWhile_append_dropWhile (p := isDig) (l := r2)]
              rw [h3, List.append_nil]
            · rw [← h]
          next => exact absurd h (by simp)
        next => exact absurd h (by simp)
  · rintro ⟨s, f, hsd, hsl, hcase, hv⟩
    rcases hcase with ⟨rfl, rfl⟩ | ⟨hfd, hf1, hf3, rfl⟩
    · obtain ⟨ht, hd⟩ := takeWhile_all hsd
      simp only [parseSS, ht, hd]
      rw [if_neg (by omega)]
      rw [hv]
      norm_num [fracMs_nil]
    · obtain ⟨ht, hd⟩ := takeWhile_append_stop (t := f) hsd (show isDig '.' = false by decide)
      obtain ⟨htf, hdf⟩ := takeWhile_all hfd
      simp only [parseSS, ht, hd]
      rw [if_neg (by omega)]
      rw [if_pos trivial]
      simp only [htf, hdf]
      rw [if_pos ⟨hf1, hf3, trivial⟩, hv]

lemma parseHMS_eq_some_iff {l : List Char} {v : ℚ} : parseHMS l = some v ↔ MMSSVal l v := by
  constructor
  · intro h
    simp only [parseHMS] at h
    split at h
    next => exact absurd h (by simp)
    next hlen =>
      split at h
      next => exact absurd h (by simp)
      next c r2 hdrop =>
        split at h
        next hc =>
          subst hc
          split at h
          next hcond2 =>
            obtain ⟨h21, h22⟩ := hcond2
            split at h
            next hdrop3 =>
              injection h with h
              refine ⟨l.takeWhile isDig, r2.takeWhile isDig, [], allDig_takeWhile l, by omega,
                allDig_takeWhile r2, h21, h22, Or.inl ⟨rfl, ?_⟩, ?_⟩
              · conv_lhs => rw [← List.takeWhile_append_dropWhile (p := isDig) (l := l)]
                rw [hdrop]
                congr 2
                conv_lhs => rw [← List.takeWhile_append_dropWhile (p := isDig) (l := r2)]
                rw [hdrop3, List.append_nil]
              · rw [← h]; norm_num [fracMs_nil]
            next e r4 hdrop3 =>
              split at h
              next he =>
                subst he
                split at h
                next hcond3 =>
                  obtain ⟨h31, h32, h33⟩ := hcond3
                  injection h with h
                  refine ⟨l.takeWhile isDig, r2.takeWhile isDig, r4.takeWhile isDig,
                    allDig_takeWhile l, by omega, allDig_takeWhile r2, h21, h22,
                    Or.inr ⟨allDig_takeWhile r4, h31, h32, ?_⟩, ?_⟩
                  · conv_lhs => rw [← List.takeWhile_append_dropWhile (p := isDig) (l := l)]
                    rw [hdrop]
                    congr 2
                    conv_lhs => rw [← List.takeWhile_append_dropWhile (p := isDig) (l := r2)]
                    rw [hdrop3]
                    congr 2
                    conv_lhs => rw [← List.takeWhile_append_dropWhile (p := isDig) (l := r4)]
                    rw [h33, List.append_nil]
                  · rw [← h]
                next => exact absurd h (by simp)
              next => exact absurd h (by simp)
          next => exact absurd h (by simp)
        next => exact absurd h (by simp)
  · rintro ⟨m, s, f, hmd, hml, hsd, hs1, hs2, hcase, hv⟩
    rcases hcase with ⟨rfl, rfl⟩ | ⟨hfd, hf1, hf3, rfl⟩
    · obtain ⟨ht, hd⟩ := takeWhile_append_stop (t := s) hmd (show isDig ':' = false by decide)
      obtain ⟨hts, hds⟩ := takeWhile_all hsd
      simp only [parseHMS, ht, hd]
      rw [if_neg (by omega)]
      rw [if_pos trivial]
      simp only [hts, hds]
      rw [if_pos ⟨hs1, hs2⟩, hv]
      norm_num [fracMs_nil]
    · obtain ⟨ht, hd⟩ := takeWhile_append_stop (t := s ++ '.' :: f) hmd
        (show isDig ':' = false by decide)
      obtain ⟨hts, hds⟩ := takeWhile_append_stop (t := f) hsd (show isDig '.' = false by decide)
      obtain ⟨htf, hdf⟩ := takeWhile_all hfd
      simp only [parseHMS, ht, hd]
      rw [if_neg (by omega)]
      rw [if_pos trivial]
      simp only [hts, hds]
      rw [if_pos ⟨hs1, hs2⟩]
      rw [if_pos trivial]
      simp only [htf, hdf]
      rw [if_pos ⟨hf1, hf3, trivial⟩, hv]

lemma parseSS_eq_none_iff {l : List Char} : parseSS l = none ↔ ¬ ∃ v, SSVal l v := by
  constructor
  · rintro h ⟨v, hv⟩
    rw [← parseSS_eq_some_iff] at hv
    rw [h] at hv
    cases hv
  · intro h
    cases heq : parseSS l with
    | none => rfl
    | some v => exact absurd ⟨v, parseSS_eq_some_iff.mp heq⟩ h

lemma parseHMS_eq_none_iff {l : List Char} : parseHMS l = none ↔ ¬ ∃ v, MMSSVal l v := by
  constructor
  · rintro h ⟨v, hv⟩
    rw [← parseHMS_eq_some_iff] at hv
    rw [h] at hv
    cases hv
  · intro h
    cases heq : parseHMS l with
    | none => rfl
    | some v => exact absurd ⟨v, parseHMS_eq_some_iff.mp heq⟩ h

/-- A string fitting the `seconds[.fraction]` grammar contains no colon,
so the two grammars are mutually exclusive. -/
lemma not_MMSSVal_of_SSVal {l : List Char} {v w : ℚ} (hss : SSVal l v) (hms : MMSSVal l w) :
    False := by
  obtain ⟨s, f, hsd, -, hcase, -⟩ := hss
  obtain ⟨m, s2, f2, -, -, -, -, -, hcase2, -⟩ := hms
  have hmem : ':' ∈ l := by
    rcases hcase2 with ⟨-, rfl⟩ | ⟨-, -, -, rfl⟩ <;>
      simp [List.mem_append]
  have : isDig ':' = true ∨ (':' : Char) = '.' := by
    rcases hcase with ⟨-, rfl⟩ | ⟨hfd, -, -, rfl⟩
    · exact Or.inl (hsd _ hmem)
    · rcases List.mem_append.mp hmem with hm | hm
      · exact Or.inl (hsd _ hm)
      · rcases List.mem_cons.mp hm with hm | hm
        · exact Or.inr hm
        · exact Or.inl (hfd _ hm)
  rcases this with h | h <;> exact absurd h (by decide)

/-! ## JS `Map` lemmas -/

lemma find_map_replace_self {k : String} {v : ℚ} :
    ∀ {m : List (String × ℚ)}, m.any (fun p => p.1 == k) = true →
      (m.map (fun p => if p.1 == k then (k, v) else p)).find? (fun p => p.1 == k) =
        some (k, v) := by
  intro m
  induction m with
  | nil => intro h; cases h
  | cons p t ih =>
    intro hany
    by_cases hp : p.1 = k
    · have hb : (p.1 == k) = true := beq_iff_eq.mpr hp
      simp only [List.map_cons, hb, if_true]
      exact List.find?_cons_of_pos _ (beq_iff_eq.mpr rfl)
    · have hb : (p.1 == k) = false := beq_eq_false_iff_ne.mpr hp
      simp only [List.map_cons, hb, Bool.false_eq_true, if_false]
      rw [List.find?_cons_of_neg _ (by simp [hb])]
      apply ih
      simpa [List.any_cons, hb] using hany

lemma find_append_single_self {k : String} {v : ℚ} :
    ∀ {m : List (String × ℚ)}, m.any (fun p => p.1 == k) = false →
      (m ++ [(k, v)]).find? (fun p => p.1 == k) = some (k, v) := by
  intro m
  induction m with
  | nil =>
    intro _
    rw [List.nil_append]
    exact List.find?_cons_of_pos [] (beq_iff_eq.mpr rfl)
  | cons p t ih =>
    intro hany
    simp only [List.any_cons, Bool.or_eq_false_iff] at hany
    rw [List.cons_append, List.find?_cons_of_neg _ (by simp [hany.1])]
    exact ih hany.2

lemma jsMapGet_set_self (m : List (String × ℚ)) (k : String) (v : ℚ) :
    jsMapGet (jsMapSet m k v) k = some v := by
  unfold jsMapSet jsMapGet
  split
  next hany => rw [find_map_replace_self hany]; rfl
  next hany => rw [find_append_single_self (Bool.of_not_eq_true hany)]; rfl

lemma jsMapGet_set_ne (m : List (String × ℚ)) (k : String) (v : ℚ) {k' : String}
    (hne : k' ≠ k) : jsMapGet (jsMapSet m k v) k' = jsMapGet m k' := by
  unfold jsMapSet jsMapGet
  split
  next hany =>
    clear hany
    congr 1
    induction m with
    | nil => simp
    | cons p t ih =>
      by_cases hp : p.1 = k
      · have hb : (p.1 == k) = true := beq_iff_eq.mpr hp
        have hbne : ((k : String) == k') = false := beq_eq_false_iff_ne.mpr (Ne.symm hne)
        have hbne2 : (p.1 == k') = false := beq_eq_false_iff_ne.mpr (hp ▸ Ne.symm hne)
        simp only [List.map_cons, hb, if_true, List.find?_cons, hbne, hbne2, ih]
      · have hb : (p.1 == k) = false := beq_eq_false_iff_ne.mpr hp
        simp only [List.map_cons, hb, Bool.false_eq_true, if_false, List.find?_cons]
        cases hb' : (p.1 == k') <;> simp only [hb', ih]
  next hany =>
    clear hany
    congr 1
    induction m with
    | nil =>
      have hbne : ((k : String) == k') = false := beq_eq_false_iff_ne.mpr (Ne.symm hne)
      simp [List.find?_cons, hbne, List.find?]
    | cons p t ih =>
      rw [List.cons_append]
      simp only [List.find?_cons]
      cases hb' : (p.1 == k') <;> simp only [hb', ih]

/-! ## The loop of `computeGapsSeconds` versus the reference fold -/

lemma computeGapsGo_get_not_mem (sp : Option ℤ) :
    ∀ (rest : List TimingDataDriver) (prev : TimingDataDriver) (m : List (String × ℚ))
      (k : String), k ∉ rest.map TimingDataDriver.racingNumber →
      jsMapGet (computeGapsGo sp rest prev m) k = jsMapGet m k := by
  intro rest
  induction rest with
  | nil => intro prev m k _; rfl
  | cons d ds ih =>
    intro prev m k hk
    simp only [List.map_cons, List.mem_cons, not_or] at hk
    cases hdir : getGapToLeaderSeconds d sp with
    | some direct =>
      rw [computeGapsGo, hdir]
      rw [ih d _ k hk.2, jsMapGet_set_ne _ _ _ hk.1]
    | none =>
      rw [computeGapsGo, hdir]
      rw [ih d _ k hk.2, jsMapGet_set_ne _ _ _ hk.1]

lemma computeGapsGo_spec (sp : Option ℤ) :
    ∀ (rest : List TimingDataDriver) (prev : TimingDataDriver) (m : List (String × ℚ))
      (pg : ℚ), jsMapGet m prev.racingNumber = some pg →
      (rest.map TimingDataDriver.racingNumber).Nodup →
      ∀ i (h : i < rest.length),
        jsMapGet (computeGapsGo sp rest prev m) (rest[i].racingNumber) =
          (specGapsFrom sp pg rest)[i]? := by
  intro rest
  induction rest with
  | nil => intro _ _ _ _ _ i h; cases h
  | cons d ds ih =>
    intro prev m pg hprev hnd i hi
    simp only [List.map_cons, List.nodup_cons] at hnd
    have hval : computeGapsGo sp (d :: ds) prev m =
        computeGapsGo sp ds d (jsMapSet m d.racingNumber (specGapStep sp pg d)) := by
      cases hdir : getGapToLeaderSeconds d sp with
      | some direct => rw [computeGapsGo, hdir, specGapStep, hdir]
      | none =>
        rw [computeGapsGo, hdir, specGapStep, hdir]
        rw [hprev]
        rfl
    rw [hval]
    cases i with
    | zero =>
      simp only [List.getElem_cons_zero, specGapsFrom, List.getElem?_cons_zero]
      rw [computeGapsGo_get_not_mem sp ds d _ _ hnd.1, jsMapGet_set_self]
    | succ j =>
      simp only [List.getElem_cons_succ, specGapsFrom, List.getElem?_cons_succ]
      exact ih d _ (specGapStep sp pg d) (jsMapGet_set_self _ _ _) hnd.2 j
        (by simpa using hi)

/-! ## Threshold and mapper lemmas -/

lemma effG1_ge (g1 g2 : ℚ) : 1/2 ≤ effG1 g1 g2 := le_max_left _ _

lemma effG1_pos (g1 g2 : ℚ) : 0 < effG1 g1 g2 := lt_of_lt_of_le (by norm_num) (effG1_ge g1 g2)

lemma effG2_ge (g1 g2 : ℚ) : effG1 g1 g2 + 1/2 ≤ effG2 g1 g2 := le_max_left _ _

lemma effG1_lt_effG2 (g1 g2 : ℚ) : effG1 g1 g2 < effG2 g1 g2 :=
  lt_of_lt_of_le (by linarith) (effG2_ge g1 g2)

lemma one_le_max_one (x : ℚ) : (1:ℚ) ≤ max 1 x := le_max_left _ _

lemma mapGapToUnit_nonneg (st : ScaleType) (G1 G2 fx sp gap : ℚ)
    (hG1 : 0 < G1) (hG12 : G1 < G2) : 0 ≤ mapGapToUnit st G1 G2 fx sp gap := by
  unfold mapGapToUnit
  rcases le_or_lt gap 0 with h0 | h0
  · rw [if_pos h0]
  · rw [if_neg (not_le.mpr h0)]
    cases st
    case piecewise =>
      simp only
      split_ifs with h1 h2
      · have := div_nonneg (le_of_lt h0) hG1.le
        nlinarith
      · have := div_nonneg (by linarith : (0:ℚ) ≤ gap - G1) (by linarith : (0:ℚ) ≤ G2 - G1)
        nlinarith
      · norm_num
    case fixed =>
      exact le_min (by norm_num)
        (div_nonneg h0.le (le_trans zero_le_one (le_max_left _ _)))
    case spread =>
      exact le_min (by norm_num)
        (div_nonneg h0.le (le_trans zero_le_one (le_max_left _ _)))

lemma mapGapToUnit_le_one (st : ScaleType) (G1 G2 fx sp gap : ℚ)
    (hG1 : 0 < G1) (hG12 : G1 < G2) : mapGapToUnit st G1 G2 fx sp gap ≤ 1 := by
  unfold mapGapToUnit
  rcases le_or_lt gap 0 with h0 | h0
  · rw [if_pos h0]; norm_num
  · rw [if_neg (not_le.mpr h0)]
    cases st
    case piecewise =>
      simp only
      split_ifs with h1 h2
      · nlinarith [(div_le_one hG1).mpr h1]
      · nlinarith [(div_le_one (by linarith : (0:ℚ) < G2 - G1)).mpr
          (by linarith : gap - G1 ≤ G2 - G1)]
      · norm_num
    case fixed => exact min_le_left _ _
    case spread => exact min_le_left _ _

lemma mapGapToUnit_mono (st : ScaleType) (G1 G2 fx sp : ℚ) {a b : ℚ}
    (hG1 : 0 < G1) (hG12 : G1 < G2) (hab : a ≤ b) :
    mapGapToUnit st G1 G2 fx sp a ≤ mapGapToUnit st G1 G2 fx sp b := by
  rcases le_or_lt a 0 with ha | ha
  · rw [show mapGapToUnit st G1 G2 fx sp a = 0 by unfold mapGapToUnit; rw [if_pos ha]]
    exact mapGapToUnit_nonneg st G1 G2 fx sp b hG1 hG12
  · have hb : ¬ b ≤ 0 := by linarith
    have hub : mapGapToUnit st G1 G2 fx sp a ≤ 1 :=
      mapGapToUnit_le_one st G1 G2 fx sp a hG1 hG12
    unfold mapGapToUnit at hub ⊢
    rw [if_neg (not_le.mpr ha)] at hub ⊢
    rw [if_neg hb]
    cases st
    case piecewise =>
      simp only at hub ⊢
      rcases le_or_lt b G1 with hbG1 | hbG1
      · rw [if_pos (by linarith : a ≤ G1), if_pos hbG1]
        gcongr
      · rw [if_neg (by linarith : ¬ b ≤ G1)]
        rcases le_or_lt b G2 with hbG2 | hbG2
        · rw [if_pos hbG2]
          rcases le_or_lt a G1 with haG1 | haG1
          · rw [if_pos haG1]
            have h1 : a / G1 ≤ 1 := (div_le_one hG1).mpr haG1
            have h2 : (0:ℚ) ≤ (b - G1) / (G2 - G1) :=
              div_nonneg (by linarith) (by linarith)
            nlinarith
          · rw [if_neg (by linarith : ¬ a ≤ G1), if_pos (by linarith : a ≤ G2)]
            gcongr
            linarith
        · rw [if_neg (by linarith : ¬ b ≤ G2)]
          exact hub
    case fixed =>
      apply min_le_min le_rfl
      have hbase : (0:ℚ) < max 1 (orDefault fx 30) :=
        lt_of_lt_of_le one_pos (le_max_left _ _)
      gcongr
    case spread =>
      apply min_le_min le_rfl
      have hbase : (0:ℚ) < max 1 (orDefault sp 1) :=
        lt_of_lt_of_le one_pos (le_max_left _ _)
      gcongr

lemma piecewiseStretch_nonneg (st : ScaleType) (G1 G2 fx sp : ℚ) (gaps : List ℚ) :
    0 ≤ piecewiseStretch st G1 G2 fx sp gaps := by
  unfold piecewiseStretch
  split_ifs with h1 h2
  · norm_num
  · norm_num
  · rw [not_or] at h2
    exact le_of_lt (div_pos one_pos (not_le.mp h2.1))

/-! ## Fold-max helpers -/

lemma le_foldl_max : ∀ (l : List ℚ) (a : ℚ), a ≤ l.foldl max a := by
  intro l
  induction l with
  | nil => intro a; simp
  | cons x xs ih =>
    intro a
    calc a ≤ max a x := le_max_left _ _
    _ ≤ xs.foldl max (max a x) := ih _
    _ = (x :: xs).foldl max a := by simp

lemma mem_le_foldl_max : ∀ (l : List ℚ) (a x : ℚ), x ∈ l → x ≤ l.foldl max a := by
  intro l
  induction l with
  | nil => intro a x hx; cases hx
  | cons y ys ih =>
    intro a x hx
    rcases List.mem_cons.mp hx with rfl | hx
    · calc x ≤ max a x := le_max_right _ _
      _ ≤ ys.foldl max (max a x) := le_foldl_max _ _
      _ = (x :: ys).foldl max a := by simp
    · simpa using ih (max a y) x hx

lemma foldl_max_le : ∀ (l : List ℚ) (a c : ℚ), a ≤ c → (∀ x ∈ l, x ≤ c) →
    l.foldl max a ≤ c := by
  intro l
  induction l with
  | nil => intro a c ha _; simpa using ha
  | cons x xs ih =>
    intro a c ha hl
    simp only [List.foldl_cons]
    exact ih _ _ (max_le ha (hl x (List.mem_cons_self x xs)))
      fun y hy => hl y (List.mem_cons_of_mem x hy)

lemma foldl_max_eq_or_mem : ∀ (l : List ℚ) (a : ℚ), l.foldl max a = a ∨ l.foldl max a ∈ l := by
  intro l
  induction l with
  | nil => intro a; exact Or.inl rfl
  | cons x xs ih =>
    intro a
    simp only [List.foldl_cons]
    rcases ih (max a x) with h | h
    · rcases max_cases a x with ⟨hm, -⟩ | ⟨hm, -⟩
      · exact Or.inl (h.trans hm)
      · refine Or.inr ?_
        rw [h, hm]
        exact List.mem_cons_self x xs
    · exact Or.inr (List.mem_cons_of_mem x h)

lemma maxWithZero_nonneg (l : List ℚ) : 0 ≤ maxWithZero l := le_foldl_max l 0

lemma maxWithZero_mem (l : List ℚ) (hne : l ≠ []) (hpos : ∀ x ∈ l, 0 ≤ x) :
    maxWithZero l ∈ l := by
  cases l with
  | nil => exact absurd rfl hne
  | cons x xs =>
    rcases foldl_max_eq_or_mem (x :: xs) 0 with h | h
    · have hx0 : x ≤ maxWithZero (x :: xs) := mem_le_foldl_max _ _ _ (List.mem_cons_self x xs)
      have hmw : maxWithZero (x :: xs) = 0 := h
      have hxz : x = 0 := le_antisymm (hmw ▸ hx0) (hpos x (List.mem_cons_self x xs))
      have hx : maxWithZero (x :: xs) = x := by rw [hmw, hxz]
      rw [hx]
      exact List.mem_cons_self x xs
    · exact h

lemma vSpreadSeconds_eq_maxWithZero (l : List ℚ) (hpos : ∀ x ∈ l, 0 ≤ x) :
    vSpreadSeconds l = maxWithZero l := by
  cases l with
  | nil => rfl
  | cons x xs =>
    show xs.foldl max x = (x :: xs).foldl max 0
    rw [List.foldl_cons]
    rw [max_eq_right (hpos x (List.mem_cons_self x xs))]

lemma mapGapToUnit_maxWithZero (st : ScaleType) (G1 G2 fx sp : ℚ) (gaps : List ℚ)
    (hG1 : 0 < G1) (hG12 : G1 < G2) (hne : gaps ≠ []) (hpos : ∀ x ∈ gaps, 0 ≤ x) :
    mapGapToUnit st G1 G2 fx sp (maxWithZero gaps) =
      maxWithZero (gaps.map (mapGapToUnit st G1 G2 fx sp)) := by
  apply le_antisymm
  · exact mem_le_foldl_max _ _ _ (List.mem_map_of_mem _ (maxWithZero_mem gaps hne hpos))
  · apply foldl_max_le
    · exact mapGapToUnit_nonneg st G1 G2 fx sp _ hG1 hG12
    · intro y hy
      rcases List.mem_map.mp hy with ⟨g, hg, rfl⟩
      exact mapGapToUnit_mono st G1 G2 fx sp hG1 hG12 (mem_le_foldl_max _ _ _ hg)

/-! ## Claim C1: gap reconstruction -/

/-- **C1** (counterexample to the claim as stated): with `sessionPart = 0`
supplied, the claim's direct three-tier resolution finds the session-part
value `+2.0` in `stats[max(0, -1)] = stats[0]`, so the claim predicts a
gap of `max(0, 2) = 2` for the second driver; the code, whose JS
truthiness test treats `sessionPart = 0` as absent, skips that tier and
resolves the flat `timeDiffToFastest = "+9.0"` instead, recording 9. -/
theorem computeGaps_claim_counterexample :
    claimDirect cexD (some 0) = some 2 ∧
    jsMapGet (computeGapsSeconds [exL1, cexD] (some 0)) "2" = some 9 ∧
    (9 : ℚ) ≠ max 0 2 := by
  refine ⟨?_, ?_, by rw [max_eq_right (by norm_num : (0:ℚ) ≤ 2)]; norm_num⟩
  · norm_num +decide [claimDirect, claimStatsField, cexD, mkDriver, Option.orElse,
      parseSeconds, parseHMS, parseSS, jsTrim, hasLapsPattern, digitsToNat, fracMs, padTo3,
      isDig, isJsWS, List.takeWhile, List.dropWhile, List.replicate]
  · have h := computeGapsGo_spec (some 0) [cexD] exL1 (jsMapSet [] exL1.racingNumber 0) 0
      (jsMapGet_set_self _ _ _) (by decide) 0 (by norm_num)
    rw [show ([cexD])[0].racingNumber = "2" from rfl] at h
    rw [show computeGapsSeconds [exL1, cexD] (some 0) =
      computeGapsGo (some 0) [cexD] exL1 (jsMapSet [] exL1.racingNumber 0) from rfl]
    rw [h]
    norm_num +decide [specGapsFrom, specGapStep, getGapToLeaderSeconds,
      getIntervalAheadSeconds, statsField, exL1, cexD, mkDriver, Option.orElse,
      parseSeconds, parseHMS, parseSS, jsTrim, hasLapsPattern, digitsToNat,
      fracMs, padTo3, isDig, isJsWS, List.takeWhile, List.dropWhile, List.replicate, max_def]

/-- **C1** (amended): for an ordered driver list with pairwise-distinct
racing numbers and any optional `sessionPart`, `computeGapsSeconds` is the
single left-to-right fold of the spec: the empty list yields the empty
map, the leader maps to exactly 0 regardless of its own signals, and every
later driver maps to `max(0, direct)` under the three-tier direct
resolution, or failing that to `max(0, previousFinalGap + interval)` with
the interval resolved by the analogous three-tier priority and defaulting
to 0 — where the session-part tier applies only when `sessionPart` is
given and nonzero (JS truthiness). -/
theorem computeGapsSeconds_spec (ordered : List TimingDataDriver) (sp : Option ℤ)
    (hnd : (ordered.map TimingDataDriver.racingNumber).Nodup) :
    (ordered = [] → computeGapsSeconds ordered sp = []) ∧
    ∀ i (h : i < ordered.length),
      jsMapGet (computeGapsSeconds ordered sp) (ordered[i].racingNumber) =
        (specGapsList ordered sp)[i]? := by
  constructor
  · rintro rfl; rfl
  · intro i hi
    cases ordered with
    | nil => cases hi
    | cons d0 rest =>
      simp only [List.map_cons, List.nodup_cons] at hnd
      rw [computeGapsSeconds, specGapsList]
      cases i with
      | zero =>
        simp only [List.getElem_cons_zero, List.getElem?_cons_zero]
        rw [computeGapsGo_get_not_mem sp rest d0 _ _ hnd.1, jsMapGet_set_self]
      | succ j =>
        simp only [List.getElem_cons_succ, List.getElem?_cons_succ]
        exact computeGapsGo_spec sp rest d0 _ 0 (jsMapGet_set_self _ _ _) hnd.2 j
          (by simpa using hi)

/-- **C1** witness: the spec's 3-driver field — driver 2 has
`gapToLeader = "+1.0"`, driver 3 only `intervalToPositionAhead.value =
"+0.5"` — resolves driver 3 to 1.5. -/
theorem computeGapsSeconds_spec_witness :
    jsMapGet (computeGapsSeconds [exL1, exD2, exD3] none) "3" = some (3/2) := by
  have h := (computeGapsSeconds_spec [exL1, exD2, exD3] none (by decide)).2 2 (by norm_num)
  rw [show ([exL1, exD2, exD3])[2].racingNumber = "3" from rfl] at h
  rw [h]
  norm_num +decide [specGapsList, specGapsFrom, specGapStep, getGapToLeaderSeconds,
    getIntervalAheadSeconds, statsField, exL1, exD2, exD3, mkDriver, Option.orElse,
    parseSeconds, parseHMS, parseSS, jsTrim, hasLapsPattern, digitsToNat, fracMs, padTo3,
    isDig, isJsWS, List.takeWhile, List.dropWhile, List.replicate, max_def]

/-! ## Claim C2: the delta parser -/

/-- **C2** (counterexample to the claim as stated): the input `" +1"`
begins with a space, not an explicit sign, so the claim as stated demands
`none`; but the code trims the string before every test and parses it to 1. -/
theorem parseSeconds_claim_counterexample :
    parseSeconds (some " +1") = some 1 ∧
    (" +1").toList.head? = some ' ' ∧ ' ' ≠ '+' ∧ ' ' ≠ '-' := by
  refine ⟨?_, by decide, by decide, by decide⟩
  norm_num +decide [parseSeconds, parseHMS, parseSS, jsTrim, hasLapsPattern, digitsToNat,
    fracMs, padTo3, isDig, isJsWS, List.takeWhile, List.dropWhile, List.replicate]

/-- **C2** (amended): after trimming whitespace, `parseSeconds` returns no
value exactly when the input is absent or the empty string, or the trimmed
string contains the laps-behind pattern (a digit followed by `L`/`l`),
or it does not begin with an explicit `+`/`-` sign, or its sign-stripped
remainder fits neither the `minutes:seconds[.fraction]` grammar nor the
`seconds[.fraction]` grammar; otherwise it returns
sign × (minutes×60 + seconds + milliseconds/1000), short fractions
right-padded with zeros to thousandths. -/
theorem parseSeconds_characterization (input : Option String) :
    (parseSeconds input = none ↔
      input = none ∨ input = some "" ∨
        ∃ s : String, input = some s ∧ s ≠ "" ∧
          (LapsToken (jsTrim s.toList) ∨
            (∀ c rest, jsTrim s.toList = c :: rest → ¬(c = '+' ∨ c = '-')) ∨
            ∃ c rest, jsTrim s.toList = c :: rest ∧ (c = '+' ∨ c = '-') ∧
              ¬ ∃ v, DeltaVal rest v)) ∧
    ∀ (s : String) (c : Char) (rest : List Char) (v : ℚ),
      input = some s → s ≠ "" → ¬ LapsToken (jsTrim s.toList) →
      jsTrim s.toList = c :: rest → (c = '+' ∨ c = '-') → DeltaVal rest v →
      parseSeconds input = some ((if c = '-' then -1 else 1) * v) := by
  constructor
  · cases input with
    | none => simp [parseSeconds]
    | some s =>
      by_cases hs : s = ""
      · subst hs; simp [parseSeconds]
      · simp only [parseSeconds, if_neg hs]
        by_cases hl : hasLapsPattern (jsTrim s.toList)
        · rw [if_pos hl]
          refine ⟨fun _ => ?_, fun _ => rfl⟩
          exact Or.inr (Or.inr ⟨s, rfl, hs, Or.inl ((hasLapsPattern_iff _).mp hl)⟩)
        · rw [if_neg hl]
          split
          next htrim =>
            refine ⟨fun _ => ?_, fun _ => rfl⟩
            refine Or.inr (Or.inr ⟨s, rfl, hs, Or.inr (Or.inl fun c rest hcr => ?_)⟩)
            rw [htrim] at hcr; cases hcr
          next c rest htrim =>
            by_cases hsign : c = '+' ∨ c = '-'
            · rw [if_pos hsign]
              cases hHMS : parseHMS rest with
              | some x =>
                refine ⟨fun h => by simp at h, ?_⟩
                rintro (h | h | ⟨s2, hseq, hs2, hcase⟩)
                · cases h
                · injection h with h; exact absurd h hs
                · injection hseq with hseq
                  subst hseq
                  rcases hcase with hLaps | hnosign | ⟨c2, rest2, hcr, hsign2, hnod⟩
                  · exact absurd ((hasLapsPattern_iff _).mpr hLaps) hl
                  · exact absurd hsign (hnosign c rest htrim)
                  · rw [htrim] at hcr
                    injection hcr with h1 h2
                    subst h1; subst h2
                    exact absurd ⟨x, Or.inl (parseHMS_eq_some_iff.mp hHMS)⟩ hnod
              | none =>
                cases hSS : parseSS rest with
                | some x =>
                  refine ⟨fun h => by simp at h, ?_⟩
                  rintro (h | h | ⟨s2, hseq, hs2, hcase⟩)
                  · cases h
                  · injection h with h; exact absurd h hs
                  · injection hseq with hseq
                    subst hseq
                    rcases hcase with hLaps | hnosign | ⟨c2, rest2, hcr, hsign2, hnod⟩
                    · exact absurd ((hasLapsPattern_iff _).mpr hLaps) hl
                    · exact absurd hsign (hnosign c rest htrim)
                    · rw [htrim] at hcr
                      injection hcr with h1 h2
                      subst h1; subst h2
                      exact absurd ⟨x, Or.inr (parseSS_eq_some_iff.mp hSS)⟩ hnod
                | none =>
                  refine ⟨fun _ => ?_, fun _ => rfl⟩
                  refine Or.inr (Or.inr ⟨s, rfl, hs,
                    Or.inr (Or.inr ⟨c, rest, htrim, hsign, ?_⟩)⟩)
                  rintro ⟨v, hv | hv⟩
                  · rw [← parseHMS_eq_some_iff] at hv; rw [hHMS] at hv; cases hv
                  · rw [← parseSS_eq_some_iff] at hv; rw [hSS] at hv; cases hv
            · rw [if_neg hsign]
              refine ⟨fun _ => ?_, fun _ => rfl⟩
              refine Or.inr (Or.inr ⟨s, rfl, hs, Or.inr (Or.inl fun c2 rest2 hcr => ?_)⟩)
              rw [htrim] at hcr
              injection hcr with h1 h2
              subst h1
              exact hsign
  · intro s c rest v hin hs hnl htrim hsign hdv
    subst hin
    have hlaps : hasLapsPattern (jsTrim s.toList) = false := by
      rcases hb : hasLapsPattern (jsTrim s.toList) with - | -
      · rfl
      · exact absurd ((hasLapsPattern_iff _).mp hb) hnl
    rw [htrim] at hlaps
    simp only [parseSeconds, if_neg hs, htrim, hlaps, Bool.false_eq_true, if_false,
      if_pos hsign]
    rcases hdv with hms | hss
    · rw [parseHMS_eq_some_iff.mpr hms]
    · have hnone : parseHMS rest = none := by
        cases hp : parseHMS rest with
        | none => rfl
        | some w => exact (not_MMSSVal_of_SSVal hss (parseHMS_eq_some_iff.mp hp)).elim
      rw [hnone, parseSS_eq_some_iff.mpr hss]

/-- **C2** witness: `"+1:02.500"` parses to 62.5 through the
`minutes:seconds.fraction` grammar (and the spec's other examples are
checked alongside as corollaries of the same clauses). -/
theorem parseSeconds_characterization_witness :
    parseSeconds (some "+1:02.500") = some (125/2) := by
  have hnl : ¬ LapsToken (jsTrim "+1:02.500".toList) := by
    intro hL
    have h2 := (hasLapsPattern_iff _).mpr hL
    rw [show hasLapsPattern (jsTrim "+1:02.500".toList) = false from by decide] at h2
    cases h2
  have hdv : DeltaVal ['1', ':', '0', '2', '.', '5', '0', '0'] (125/2) := by
    refine Or.inl ⟨['1'], ['0', '2'], ['5', '0', '0'], allDig_of_all (by decide), by decide,
      allDig_of_all (by decide), by decide, by decide,
      Or.inr ⟨allDig_of_all (by decide), by decide, by decide, by decide⟩, ?_⟩
    norm_num [digitsToNat, fracMs, padTo3, List.replicate]
  have h := (parseSeconds_characterization (some "+1:02.500")).2 "+1:02.500" '+'
    ['1', ':', '0', '2', '.', '5', '0', '0'] (125/2) rfl (by decide) hnl (by decide)
    (Or.inl rfl) hdv
  rw [h, if_neg (by decide : ¬ ('+' : Char) = '-')]
  norm_num

/-! ## Claim C3: piecewise mapping -/

/-- **C3**: with the effective thresholds, the piecewise mapper returns
`(gap/G1) * 0.7` on `0 < gap ≤ G1`, `0.7 + ((gap-G1)/(G2-G1)) * 0.3` on
`G1 < gap ≤ G2`, exactly 1 beyond `G2`, and the dot is flagged `overMax`
exactly when `gap > G2`. -/
theorem mapGapToUnit_piecewise_formula (g1 g2 fx sp gap : ℚ) :
    (0 < gap → gap ≤ effG1 g1 g2 →
      mapGapToUnit ScaleType.piecewise (effG1 g1 g2) (effG2 g1 g2) fx sp gap =
        gap / effG1 g1 g2 * (7/10)) ∧
    (effG1 g1 g2 < gap → gap ≤ effG2 g1 g2 →
      mapGapToUnit ScaleType.piecewise (effG1 g1 g2) (effG2 g1 g2) fx sp gap =
        7/10 + (gap - effG1 g1 g2) / (effG2 g1 g2 - effG1 g1 g2) * (3/10)) ∧
    (effG2 g1 g2 < gap →
      mapGapToUnit ScaleType.piecewise (effG1 g1 g2) (effG2 g1 g2) fx sp gap = 1) ∧
    (overMaxFlag ScaleType.piecewise (effG2 g1 g2) fx sp gap = true ↔ effG2 g1 g2 < gap) := by
  have hG1 := effG1_pos g1 g2
  have hG12 := effG1_lt_effG2 g1 g2
  refine ⟨?_, ?_, ?_, ?_⟩
  · intro h0 h1
    unfold mapGapToUnit
    rw [if_neg (not_le.mpr h0)]
    simp only
    rw [if_pos h1]
  · intro h1 h2
    unfold mapGapToUnit
    rw [if_neg (by push_neg; linarith)]
    simp only
    rw [if_neg (not_le.mpr h1), if_pos h2]
  · intro h2
    unfold mapGapToUnit
    rw [if_neg (by push_neg; linarith)]
    simp only
    rw [if_neg (by push_neg; linarith), if_neg (not_le.mpr h2)]
  · unfold overMaxFlag baseSecOf
    simp only [decide_eq_true_eq]

/-- **C3** witness: with `G1 = 3`, `G2 = 15` (the store defaults, already
fixed by clamping): `gapToUnit 3 = 0.7` exactly, `gapToUnit 15 = 1`,
`gapToUnit 20 = 1` and 20 is flagged `overMax`. -/
theorem mapGapToUnit_piecewise_formula_witness :
    mapGapToUnit ScaleType.piecewise (effG1 3 15) (effG2 3 15) 30 0 3 = 7/10 ∧
    mapGapToUnit ScaleType.piecewise (effG1 3 15) (effG2 3 15) 30 0 15 = 1 ∧
    mapGapToUnit ScaleType.piecewise (effG1 3 15) (effG2 3 15) 30 0 20 = 1 ∧
    overMaxFlag ScaleType.piecewise (effG2 3 15) 30 0 20 = true := by
  have e1 : effG1 3 15 = 3 := by norm_num [effG1, orDefault, max_def, min_def]
  have e2 : effG2 3 15 = 15 := by norm_num [effG2, effG1, orDefault, max_def, min_def]
  refine ⟨?_, ?_, ?_, ?_⟩
  · have h := (mapGapToUnit_piecewise_formula 3 15 30 0 3).1 (by norm_num)
      (by rw [e1])
    rw [h, e1]
    norm_num
  · have h := (mapGapToUnit_piecewise_formula 3 15 30 0 15).2.1
      (by rw [e1]; norm_num) (by rw [e2])
    rw [h, e1, e2]
    norm_num
  · exact (mapGapToUnit_piecewise_formula 3 15 30 0 20).2.2.1 (by rw [e2]; norm_num)
  · exact (mapGapToUnit_piecewise_formula 3 15 30 0 20).2.2.2.mpr (by rw [e2]; norm_num)

/-! ## Claim C4: piecewise stretch -/

/-- **C4**: let `m` be the maximum raw piecewise unit over the visible
drivers.  If `0 < m < 1` the stretch factor is `1/m`, and multiplying and
re-clamping sends every driver achieving `m` (the farthest-back visible
driver) to exactly 1; if `m = 0` or `m ≥ 1` the stretch factor is 1 and
all units are unchanged by the multiply-and-clamp step. -/
theorem piecewiseStretch_spec (g1 g2 fx : ℚ) (gaps : List ℚ) (m : ℚ)
    (hne : gaps ≠ []) (hpos : ∀ x ∈ gaps, 0 ≤ x)
    (hm : m = maxWithZero (gaps.map (mapGapToUnit ScaleType.piecewise (effG1 g1 g2)
      (effG2 g1 g2) fx (vSpreadSeconds gaps)))) :
    (0 < m → m < 1 →
      piecewiseStretch ScaleType.piecewise (effG1 g1 g2) (effG2 g1 g2) fx
          (vSpreadSeconds gaps) gaps = 1 / m ∧
        ∀ g ∈ gaps,
          mapGapToUnit ScaleType.piecewise (effG1 g1 g2) (effG2 g1 g2) fx
              (vSpreadSeconds gaps) g = m →
            min 1 (mapGapToUnit ScaleType.piecewise (effG1 g1 g2) (effG2 g1 g2) fx
              (vSpreadSeconds gaps) g *
              piecewiseStretch ScaleType.piecewise (effG1 g1 g2) (effG2 g1 g2) fx
                (vSpreadSeconds gaps) gaps) = 1) ∧
    (m = 0 ∨ 1 ≤ m →
      piecewiseStretch ScaleType.piecewise (effG1 g1 g2) (effG2 g1 g2) fx
          (vSpreadSeconds gaps) gaps = 1 ∧
        ∀ g ∈ gaps,
          min 1 (mapGapToUnit ScaleType.piecewise (effG1 g1 g2) (effG2 g1 g2) fx
            (vSpreadSeconds gaps) g *
            piecewiseStretch ScaleType.piecewise (effG1 g1 g2) (effG2 g1 g2) fx
              (vSpreadSeconds gaps) gaps) =
            mapGapToUnit ScaleType.piecewise (effG1 g1 g2) (effG2 g1 g2) fx
              (vSpreadSeconds gaps) g) := by
  have hG1 := effG1_pos g1 g2
  have hG12 := effG1_lt_effG2 g1 g2
  have hbase : mapGapToUnit ScaleType.piecewise (effG1 g1 g2) (effG2 g1 g2) fx
      (vSpreadSeconds gaps) (maxWithZero gaps) = m := by
    rw [hm]
    exact mapGapToUnit_maxWithZero _ _ _ _ _ gaps hG1 hG12 hne hpos
  constructor
  · intro hm0 hm1
    have hstretch : piecewiseStretch ScaleType.piecewise (effG1 g1 g2) (effG2 g1 g2) fx
        (vSpreadSeconds gaps) gaps = 1 / m := by
      unfold piecewiseStretch
      rw [if_neg (by simp), hbase, if_neg (by push_neg; constructor <;> linarith)]
    refine ⟨hstretch, fun g hg hu => ?_⟩
    rw [hstretch, hu]
    rw [mul_one_div, div_self (ne_of_gt hm0)]
    norm_num
  · intro hcase
    have hstretch : piecewiseStretch ScaleType.piecewise (effG1 g1 g2) (effG2 g1 g2) fx
        (vSpreadSeconds gaps) gaps = 1 := by
      unfold piecewiseStretch
      rw [if_neg (by simp), hbase]
      rcases hcase with rfl | h1
      · rw [if_pos (Or.inl le_rfl)]
      · rw [if_pos (Or.inr h1)]
    refine ⟨hstretch, fun g hg => ?_⟩
    rw [hstretch, mul_one]
    exact min_eq_right (mapGapToUnit_le_one _ _ _ _ _ _ hG1 hG12)

/-- **C4** witness: with the default thresholds and visible gaps
`[0, 15/7]`, the farthest driver's raw unit is `1/2`, the stretch factor
is `2`, and that driver's final unit is exactly 1. -/
theorem piecewiseStretch_spec_witness :
    piecewiseStretch ScaleType.piecewise (effG1 3 15) (effG2 3 15) 30
      (vSpreadSeconds [0, 15/7]) [0, 15/7] = 1 / (1/2) ∧
    min 1 (mapGapToUnit ScaleType.piecewise (effG1 3 15) (effG2 3 15) 30
      (vSpreadSeconds [0, 15/7]) (15/7) *
      piecewiseStretch ScaleType.piecewise (effG1 3 15) (effG2 3 15) 30
        (vSpreadSeconds [0, 15/7]) [0, 15/7]) = 1 := by
  have e1 : effG1 3 15 = 3 := by norm_num [effG1, orDefault, max_def, min_def]
  have e2 : effG2 3 15 = 15 := by norm_num [effG2, effG1, orDefault, max_def, min_def]
  have hu : mapGapToUnit ScaleType.piecewise (effG1 3 15) (effG2 3 15) 30
      (vSpreadSeconds [0, 15/7]) (15/7) = 1/2 := by
    rw [e1, e2]
    norm_num [mapGapToUnit]
  have hmax : maxWithZero ([0, 15/7].map (mapGapToUnit ScaleType.piecewise (effG1 3 15)
      (effG2 3 15) 30 (vSpreadSeconds [0, 15/7]))) = 1/2 := by
    rw [e1, e2]
    norm_num [mapGapToUnit, maxWithZero, List.foldl, max_def]
  have h := (piecewiseStretch_spec 3 15 30 [0, 15/7] (1/2) (by simp)
    (by intro x hx
        simp only [List.mem_cons, List.not_mem_nil, or_false] at hx
        rcases hx with rfl | rfl <;> norm_num)
    hmax.symm).1 (by norm_num) (by norm_num)
  exact ⟨h.1, h.2 (15/7) (by simp) hu⟩

/-! ## Claim C5: unit/angle equivalence of the two visualizations -/

/-- **C5** (counterexample to the claim as stated): in piecewise mode, at
`gap = G1 = 3` the Vertical mapper gives `0.7` while the Circle mapper
gives `240°`, and `240/360 = 2/3 ≠ 0.7` — the two visualizations allocate
the first segment differently (70% of the axis versus 240° of 360°). -/
theorem unit_angle_claim_counterexample :
    mapGapToUnit ScaleType.piecewise (effG1 3 15) (effG2 3 15) 30 0 3 = 7/10 ∧
    mapGapToAngle ScaleType.piecewise (effG1 3 15) (effG2 3 15) 30 90 3 = 240 ∧
    (240 : ℚ) / 360 ≠ 7/10 := by
  have e1 : effG1 3 15 = 3 := by norm_num [effG1, orDefault, max_def, min_def]
  have e2 : effG2 3 15 = 15 := by norm_num [effG2, effG1, orDefault, max_def, min_def]
  refine ⟨?_, ?_, by norm_num⟩
  · rw [e1, e2]; norm_num [mapGapToUnit]
  · rw [e1, e2]; norm_num [mapGapToAngle]

/-- **C5** (amended): the equivalence `unit = angle / 360` holds in fixed
mode (for every gap, every configuration and any visible-set context of
either component); it fails in piecewise mode (segment split 0.7/0.3
versus 240°/120°) and in spread mode (different denominators). -/
theorem fixed_unit_eq_angle_div (g1 g2 fx spv spc gap : ℚ) :
    mapGapToUnit ScaleType.fixed (effG1 g1 g2) (effG2 g1 g2) fx spv gap =
      mapGapToAngle ScaleType.fixed (effG1 g1 g2) (effG2 g1 g2) fx spc gap / 360 := by
  unfold mapGapToUnit mapGapToAngle
  rcases le_or_lt gap 0 with h | h
  · rw [if_pos h, if_pos h]
    norm_num
  · rw [if_neg (not_le.mpr h), if_neg (not_le.mpr h)]
    simp only
    rw [eq_div_iff (by norm_num : (360:ℚ) ≠ 0)]
    rw [min_mul_of_nonneg _ _ (by norm_num : (0:ℚ) ≤ 360)]
    norm_num

/-! ## Claim C6: fixed mode -/

/-- **C6** (counterexample to the claim as stated): with a configured
`fixedSeconds = 0` the code's denominator is the `|| 30` default, not the
claimed floor of 1: `gapToUnit 10 = 1/3`, whereas the claim's formula
`min(1, gap / max(1, fixedSeconds))` gives 1. -/
theorem fixed_zero_claim_counterexample :
    mapGapToUnit ScaleType.fixed (effG1 3 15) (effG2 3 15) 0 0 10 = 1/3 ∧
    min 1 ((10:ℚ) / max 1 0) = 1 ∧ (1/3 : ℚ) ≠ 1 := by
  refine ⟨?_, ?_, by norm_num⟩
  · norm_num [mapGapToUnit, orDefault, max_def]
  · norm_num [max_def, min_def]

/-- **C6** (amended): in fixed mode, for every gap > 0 the mapper returns
`min(1, gap / max(1, fixedSeconds'))` where `fixedSeconds'` is the
configured value with 0 replaced by the 30-second default (so a zero
setting yields denominator 30, and a negative setting floors at 1). -/
theorem mapGapToUnit_fixed_formula (g1 g2 fx sp gap : ℚ) (h : 0 < gap) :
    mapGapToUnit ScaleType.fixed (effG1 g1 g2) (effG2 g1 g2) fx sp gap =
      min 1 (gap / max 1 (if fx = 0 then 30 else fx)) := by
  unfold mapGapToUnit orDefault
  rw [if_neg (not_le.mpr h)]

/-- **C6** witness: `gapToUnit 10` with `fixedSeconds = 30` is `1/3`. -/
theorem mapGapToUnit_fixed_formula_witness :
    mapGapToUnit ScaleType.fixed (effG1 3 15) (effG2 3 15) 30 0 10 = 1/3 := by
  rw [mapGapToUnit_fixed_formula 3 15 30 0 10 (by norm_num)]
  norm_num [max_def, min_def]

/-! ## Claim C7: spread mode -/

/-- **C7** (counterexample to the claim as stated for the Circle
component): with a single visible driver at gap `1/2`, the Circle's
spread denominator is `1/2` itself (no floor at 1), so the gap `1/2` maps
to the full `360°`; the claimed formula `min(1, gap / max(1, M))` gives
`1/2`, not `360/360 = 1`. -/
theorem circle_spread_claim_counterexample :
    cSpreadSeconds [1/2] 90 = 1/2 ∧
    mapGapToAngle ScaleType.spread (effG1 3 15) (effG2 3 15) 30
      (cSpreadSeconds [1/2] 90) (1/2) = 360 ∧
    (360 : ℚ) / 360 ≠ min 1 ((1/2 : ℚ) / max 1 (maxWithZero [1/2])) := by
  have e : cSpreadSeconds [1/2] 90 = 1/2 := by
    norm_num [cSpreadSeconds, vSpreadSeconds, orDefault]
  refine ⟨e, ?_, ?_⟩
  · rw [e]
    norm_num [mapGapToAngle, min_def]
  · norm_num [maxWithZero, List.foldl, max_def, min_def]

/-- **C7** (amended): the Vertical component's spread mode satisfies the
claim: for every gap > 0 and non-negative visible gap list, the unit is
`min(1, gap / max(1, M))` with `M` the maximum visible gap (denominator
floored at 1 when no visible gap is positive).  The Circle component
instead divides by `M` itself when `M > 0` (no floor) and by the leader's
lap time when no visible gap is positive. -/
theorem mapGapToUnit_spread_formula (g1 g2 fx : ℚ) (gaps : List ℚ) (gap : ℚ)
    (hpos : ∀ x ∈ gaps, 0 ≤ x) (h : 0 < gap) :
    mapGapToUnit ScaleType.spread (effG1 g1 g2) (effG2 g1 g2) fx
      (vSpreadSeconds gaps) gap = min 1 (gap / max 1 (maxWithZero gaps)) := by
  unfold mapGapToUnit
  rw [if_neg (not_le.mpr h)]
  simp only
  rw [vSpreadSeconds_eq_maxWithZero gaps hpos]
  have : max 1 (orDefault (maxWithZero gaps) 1) = max 1 (maxWithZero gaps) := by
    unfold orDefault
    split_ifs with h0
    · rw [h0]
      norm_num [max_def]
    · rfl
  rw [this]

/-- **C7** witness: one visible driver at gap 2, query gap 1. -/
theorem mapGapToUnit_spread_formula_witness :
    mapGapToUnit ScaleType.spread (effG1 3 15) (effG2 3 15) 30 (vSpreadSeconds [2]) 1 =
      min 1 (1 / max 1 (maxWithZero [2])) :=
  mapGapToUnit_spread_formula 3 15 30 [2] 1
    (by intro x hx
        simp only [List.mem_singleton] at hx
        subst hx
        norm_num)
    (by norm_num)

/-! ## Claim C8: threshold clamping safety -/

/-- **C8**: for every user-supplied threshold pair (including inverted or
degenerate values), the effective thresholds satisfy `0.5 ≤ G1` and
`G1 + 0.5 ≤ G2` (hence `G1 < G2` strictly); every denominator the mapper
divides by is strictly positive (`G1`, `G2 - G1`, and the fixed/spread
bases which are at least 1), and for every gap in every mode the unit lies
in `[0, 1]` — there is no division by zero and no undefined unit. -/
theorem thresholds_safe (g1 g2 : ℚ) :
    1/2 ≤ effG1 g1 g2 ∧ effG1 g1 g2 + 1/2 ≤ effG2 g1 g2 ∧
    0 < effG1 g1 g2 ∧ 0 < effG2 g1 g2 - effG1 g1 g2 ∧
    (∀ fx sp : ℚ, 1 ≤ max 1 (orDefault fx 30) ∧ 1 ≤ max 1 (orDefault sp 1)) ∧
    ∀ (st : ScaleType) (fx sp gap : ℚ),
      0 ≤ mapGapToUnit st (effG1 g1 g2) (effG2 g1 g2) fx sp gap ∧
      mapGapToUnit st (effG1 g1 g2) (effG2 g1 g2) fx sp gap ≤ 1 := by
  have h1 := effG1_ge g1 g2
  have h2 := effG2_ge g1 g2
  have h3 := effG1_pos g1 g2
  have h4 := effG1_lt_effG2 g1 g2
  exact ⟨h1, h2, h3, by linarith, fun fx sp => ⟨le_max_left _ _, le_max_left _ _⟩,
    fun st fx sp gap => ⟨mapGapToUnit_nonneg st _ _ fx sp gap h3 h4,
      mapGapToUnit_le_one st _ _ fx sp gap h3 h4⟩⟩

/-! ## Claim C9: monotonicity of the final coordinate -/

/-- **C9**: for any fixed configuration and visible-set context, the
complete mapping (mode mapping, stretch multiplication, clamp to ≤ 1) is
monotone in the gap, and every final coordinate lies in `[0, 1]`. -/
theorem dotY_mono (st : ScaleType) (g1 g2 fx : ℚ) (visibleGaps : List ℚ) {a b : ℚ}
    (hab : a ≤ b) :
    dotY st (effG1 g1 g2) (effG2 g1 g2) fx visibleGaps a ≤
      dotY st (effG1 g1 g2) (effG2 g1 g2) fx visibleGaps b ∧
    0 ≤ dotY st (effG1 g1 g2) (effG2 g1 g2) fx visibleGaps a ∧
    dotY st (effG1 g1 g2) (effG2 g1 g2) fx visibleGaps b ≤ 1 := by
  have hG1 := effG1_pos g1 g2
  have hG12 := effG1_lt_effG2 g1 g2
  unfold dotY
  have hs0 : 0 ≤ (if st = ScaleType.piecewise then
      piecewiseStretch st (effG1 g1 g2) (effG2 g1 g2) fx (vSpreadSeconds visibleGaps)
        visibleGaps else 1) := by
    split_ifs
    · exact piecewiseStretch_nonneg _ _ _ _ _ _
    · norm_num
  refine ⟨?_, ?_, min_le_left _ _⟩
  · apply min_le_min le_rfl
    exact mul_le_mul_of_nonneg_right
      (mapGapToUnit_mono st _ _ fx _ hG1 hG12 hab) hs0
  · exact le_min (by norm_num)
      (mul_nonneg (mapGapToUnit_nonneg st _ _ fx _ _ hG1 hG12) hs0)

/-- **C9** witness: a concrete comparison in fixed mode. -/
theorem dotY_mono_witness :
    (1 : ℚ) ≤ 2 ∧
    dotY ScaleType.fixed (effG1 3 15) (effG2 3 15) 30 [] 1 ≤
      dotY ScaleType.fixed (effG1 3 15) (effG2 3 15) 30 [] 2 :=
  ⟨by norm_num, (dotY_mono ScaleType.fixed 3 15 30 [] (by norm_num : (1:ℚ) ≤ 2)).1⟩

/-! ## Claim C10: the topN cutoff -/

/-- **C10**: a zero (the store default) or negative `topN` shows the whole
ordered list; a positive `topN` shows exactly the first
`min(topN, length)` drivers in rank order. -/
theorem visibleOf_spec (ordered : List TimingDataDriver) (topN : ℤ) :
    (topN ≤ 0 → visibleOf ordered topN = ordered) ∧
    (0 < topN → visibleOf ordered topN = ordered.take (min topN.toNat ordered.length)) := by
  constructor
  · intro h
    unfold visibleOf
    rw [if_neg fun hc => absurd hc.2 (not_lt.mpr h)]
  · intro h
    unfold visibleOf
    rw [if_pos ⟨by omega, h⟩]
    congr 1
    omega

/-- **C10** witness: `topN = -1` (and the default 0 behaves the same by
the same clause) shows all three drivers; `topN = 2` shows the first two. -/
theorem visibleOf_spec_witness :
    visibleOf [exL1, exD2, exD3] (-1) = [exL1, exD2, exD3] ∧
    visibleOf [exL1, exD2, exD3] 2 = [exL1, exD2] := by
  refine ⟨(visibleOf_spec [exL1, exD2, exD3] (-1)).1 (by norm_num), ?_⟩
  rw [(visibleOf_spec [exL1, exD2, exD3] 2).2 (by norm_num)]
  rfl

end Dash
